import Mathlib

/-!
Verification development for `scripts/build_data.py`, the ingestion and
reconciliation pipeline that produces one `Articulos.csv` per distribution
center.  The Python source is shallowly embedded: pandas cells read with
`dtype=str` become `Option String` (`none` models a NaN cell), Python dicts
become association lists with overwrite-on-insert, Python numbers become
exact rationals (`ℚ`), and every partial operation is total with the same
fallback values the source uses.  Python floats are IEEE doubles; this model
uses exact rationals, and every concrete value appearing in a theorem below
is a small integer or half-integer on which the two agree exactly.
-/

attribute [local semireducible] Rat.add Rat.sub Rat.mul Rat.inv

set_option maxRecDepth 8000

/-- A pandas cell of a `dtype=str` dataframe: `none` is a NaN (missing) cell. -/
def Cell : Type := Option String

/-- Characters stripped by Python `str.strip()` (the ASCII whitespace set;
`str.strip` also strips rarer Unicode spaces, which never occur here). -/
def isPySpace (c : Char) : Bool :=
  c = ' ' || c = '\t' || c = '\n' || c = '\x0d' || c = '\x0b' || c = '\x0c'

/-- Python `str.strip()` on a character list. -/
def pyStripList (l : List Char) : List Char :=
  ((l.dropWhile isPySpace).reverse.dropWhile isPySpace).reverse

/-- Python `str.strip()`. -/
def pyStrip (s : String) : String := ⟨pyStripList s.data⟩

/-- `astype(str)` on one cell: a NaN cell stringifies to `"nan"`. -/
def astypeStr (c : Option String) : String :=
  match c with
  | some s => s
  | none => "nan"

/-- Python `str.replace(c, t)` for a single-character pattern `c`. -/
def replaceCharList (l : List Char) (c : Char) (t : List Char) : List Char :=
  (l.map (fun x => if x = c then t else [x])).flatten

/-- Python `str.lower()` restricted to the characters this pipeline can meet:
ASCII letters plus the accented uppercase letters folded by `strip` below.
Other characters are returned unchanged. -/
def pyLowerChar (c : Char) : Char :=
  if 'A' ≤ c ∧ c ≤ 'Z' then Char.ofNat (c.toNat + 32)
  else if c = 'Á' then 'á'
  else if c = 'É' then 'é'
  else if c = 'Í' then 'í'
  else if c = 'Ó' then 'ó'
  else if c = 'Ú' then 'ú'
  else if c = 'Ü' then 'ü'
  else if c = 'Ñ' then 'ñ'
  else c

/-- Accent folding of `strip` (build_data.py line 140): the seven lowercase
replacements `á é í ó ú ü ñ → a e i o u u n`. -/
def foldAccents (l : List Char) : List Char :=
  l.map (fun c =>
    if c = 'á' then 'a'
    else if c = 'é' then 'e'
    else if c = 'í' then 'i'
    else if c = 'ó' then 'o'
    else if c = 'ú' then 'u'
    else if c = 'ü' then 'u'
    else if c = 'ñ' then 'n'
    else c)

/-- `strip` from build_data.py (lines 138-143): lowercase, trim, fold accents,
drop `:` and `.`, turn `-` into a space, collapse whitespace runs. -/
def strip (s : String) : String :=
  let t := pyStripList (s.data.map pyLowerChar)
  let t := foldAccents t
  let t := replaceCharList (replaceCharList (replaceCharList t ':' []) '.' []) '-' [' ']
  ⟨List.intercalate [' '] ((t.splitOnP isPySpace).filter (· ≠ []))⟩

/-- Python's substring test `w in n`. -/
def pyIn (w n : String) : Bool := decide (w.data <:+: n.data)

/-! ### File-kind selection (`pick_engine`, lines 90-96) -/

/-- The final path component (`os.path` basename, POSIX separator). -/
def basenameChars (path : String) : List Char :=
  (path.data.reverse.takeWhile (fun c => c ≠ '/')).reverse

/-- The extension part of `os.path.splitext`: the suffix from the last dot of
the basename, except that leading dots of the basename never start an
extension. -/
def extChars (path : String) : List Char :=
  let base := basenameChars path
  let rest := base.dropWhile (fun c => c = '.')
  if rest.contains '.' then '.' :: (rest.reverse.takeWhile (fun c => c ≠ '.')).reverse
  else []

/-- `pick_engine` (lines 90-96): chooses a spreadsheet engine from the
lowercased filename extension alone; `none` means "quizá CSV". -/
def pick_engine (path : String) : Option String :=
  let ext : String := ⟨(extChars path).map pyLowerChar⟩
  if ext = ".xlsx" ∨ ext = ".xlsm" then some "openpyxl"
  else if ext = ".xls" then some "xlrd"
  else none

/-- The file kinds named by the specification's FormatSniffer section. -/
inductive FileKind where
  | zipSpreadsheet
  | legacySpreadsheet
  | delimitedText
deriving DecidableEq

/-- Modelled from the spec: the claimed signature-based classification, which
reads only the first bytes of the file: `PK\x03\x04` prefix means a zip-based
spreadsheet, `D0 CF 11 E0` prefix means a legacy binary spreadsheet, anything
else is delimited text.  No such function exists in the source; it is the
claim's description, kept for comparison with `pick_engine`. -/
def specClassifyBySignature (firstBytes : List ℕ) : FileKind :=
  if [0x50, 0x4B, 0x03, 0x04].isPrefixOf firstBytes then FileKind.zipSpreadsheet
  else if [0xD0, 0xCF, 0x11, 0xE0].isPrefixOf firstBytes then FileKind.legacySpreadsheet
  else FileKind.delimitedText

/-! ### `read_table` (lines 98-116)

The pandas parsers themselves are outside the repository; a source file is
modelled by its path together with the abstract outcome of each parser that
`read_table` may call on it (`none` models "the parser raised").  The control
flow of `read_table` is embedded exactly: the Excel call sits inside the outer
`try`, so an engine exception propagates to the final `except` and becomes a
`RuntimeError`; only the non-Excel branch tries `;` CSV and then `,` CSV. -/

/-- A parsed table; only compared for identity by the claims. -/
def Tbl : Type := List (List String)

/-- A raw input file as `read_table` observes it: its path and the outcome of
each parser that could be attempted on it (`none` = that parser raises). -/
structure RawFile where
  path : String
  excelParse : Option Tbl
  csvSemiParse : Option Tbl
  csvCommaParse : Option Tbl

/-- `read_table` (lines 98-116). -/
def read_table (f : RawFile) : Except String Tbl :=
  match pick_engine f.path with
  | some _ =>
    match f.excelParse with
    | some df => Except.ok df
    | none => Except.error ("ERROR leyendo " ++ f.path)
  | none =>
    match f.csvSemiParse with
    | some df => Except.ok df
    | none =>
      match f.csvCommaParse with
      | some df => Except.ok df
      | none => Except.error ("ERROR leyendo " ++ f.path)

/-! ### Python numeric parsing and `to_int` (lines 145-162) -/

/-- The value classes a Python `float(...)` call can produce. -/
inductive PyNum where
  | fin (q : ℚ)
  | pinf
  | ninf
  | nan
deriving DecidableEq

/-- A digit or the underscore separator Python numerals allow. -/
def digitOrUnd (c : Char) : Bool := c.isDigit || c = '_'

/-- No two consecutive underscores. -/
def noDoubleUnd : List Char → Bool
  | '_' :: '_' :: _ => false
  | _ :: rest => noDoubleUnd rest
  | [] => true

/-- A valid Python digit group: nonempty digits with underscores strictly
between digits. -/
def digitGroupOk (l : List Char) : Bool :=
  (!l.isEmpty) && l.all digitOrUnd && noDoubleUnd l &&
    (match l.head? with | some c => c.isDigit | none => false) &&
    (match l.getLast? with | some c => c.isDigit | none => false)

/-- Numeric value of one decimal digit. -/
def digitVal (c : Char) : ℕ := c.toNat - 48

/-- Value of a list of decimal digits, most significant first. -/
def natOfDigits (l : List Char) : ℕ := l.foldl (fun a c => 10 * a + digitVal c) 0

/-- Parse the mantissa of a Python float literal (no sign, no exponent). -/
def parseMantissa (m : List Char) : Option ℚ :=
  match m.splitOnP (fun c => c = '.') with
  | [ip] =>
    if digitGroupOk ip then some ((natOfDigits (ip.filter Char.isDigit) : ℚ)) else none
  | [ip, fp] =>
    if (ip.isEmpty || digitGroupOk ip) && (fp.isEmpty || digitGroupOk fp)
        && !(ip.isEmpty && fp.isEmpty) then
      let df := fp.filter Char.isDigit
      some ((natOfDigits (ip.filter Char.isDigit) : ℚ) +
        (natOfDigits df : ℚ) / ((10 : ℚ) ^ df.length))
    else none
  | _ => none

/-- Parse the exponent part of a Python float literal (after `e`/`E`). -/
def parseExpPart (e : List Char) : Option ℤ :=
  match e with
  | '+' :: r => if digitGroupOk r then some ((natOfDigits (r.filter Char.isDigit) : ℤ)) else none
  | '-' :: r => if digitGroupOk r then some (-(natOfDigits (r.filter Char.isDigit) : ℤ)) else none
  | r => if digitGroupOk r then some ((natOfDigits (r.filter Char.isDigit) : ℤ)) else none

/-- The smallest positive rational that rounds to +infinity when converted to
an IEEE double: `2^1024 - 2^970` (round half to even), written as an explicit
numeral so that it evaluates by literal arithmetic. -/
def dblOverflow : ℚ := 179769313486231580793728971405303415079934132710037826936173778980444968292764750946649017977587207096330286416692887910946555547851940402630657488671505820681908902000708383676273854845817711531764475730270069855571366959622842914819860834936475292719074168444365510704342711559699508093042880177904174497792

/-- Classify a finite exact parse result as a double does: magnitudes at or
above the overflow threshold become infinities. -/
def mkFin (q : ℚ) : PyNum :=
  if q ≥ dblOverflow then PyNum.pinf
  else if q ≤ -dblOverflow then PyNum.ninf
  else PyNum.fin q

/-- Parse an unsigned Python float body: `inf`/`infinity`/`nan` (any case) or
a decimal numeral with optional fraction and exponent. -/
def parseUnsignedPy (l : List Char) (neg : Bool) : Option PyNum :=
  let low := l.map pyLowerChar
  if low = ['i', 'n', 'f'] ∨ low = "infinity".data then
    some (if neg then PyNum.ninf else PyNum.pinf)
  else if low = ['n', 'a', 'n'] then some PyNum.nan
  else
    match l.splitOnP (fun c => c = 'e' ∨ c = 'E') with
    | [m] =>
      match parseMantissa m with
      | some q => some (mkFin (if neg then -q else q))
      | none => none
    | [m, ex] =>
      match parseMantissa m, parseExpPart ex with
      | some q, some e =>
        some (mkFin ((if neg then -q else q) * (10 : ℚ) ^ e))
      | _, _ => none
    | _ => none

/-- Python `float(s)` on a character list: strips surrounding whitespace, an
optional sign, then the body.  Finite results are the exact rational value
(IEEE rounding is not modelled; see the header note). -/
def pyFloatParseL (l0 : List Char) : Option PyNum :=
  let l := pyStripList l0
  if l.head? = some '+' then parseUnsignedPy l.tail false
  else if l.head? = some '-' then parseUnsignedPy l.tail true
  else parseUnsignedPy l false

/-- Python `float(s)` on a string. -/
def pyFloatParse (s : String) : Option PyNum := pyFloatParseL s.data

/-- Python `round(x)`: round half to even, as `int(round(v))` performs. -/
def pyRound (q : ℚ) : ℤ :=
  let f := ⌊q⌋
  let r := q - (f : ℚ)
  if r < 1 / 2 then f
  else if r > 1 / 2 then f + 1
  else if f % 2 = 0 then f else f + 1

/-- Characters kept by `to_int`'s salvage pass (line 158):
`ch.isdigit() or ch in ".-"`. -/
def keepDigitDotMinus (c : Char) : Bool := c.isDigit || c = '.' || c = '-'

/-- `to_int` (lines 145-162) on a string cell value: trim, commas to periods,
empty or `nan` to 0; then `int(round(float(s)))`, where an infinite value
makes `int(round(v))` raise `OverflowError` and fall into the salvage branch,
which keeps only digits, periods and minus signs and retries; anything still
unparsable is 0. -/
def to_int (x : String) : ℤ :=
  let s := replaceCharList (pyStripList x.data) ',' ['.']
  if s = [] ∨ s.map pyLowerChar = ['n', 'a', 'n'] then 0
  else
    match pyFloatParseL s with
    | some (PyNum.fin q) => pyRound q
    | some PyNum.nan => 0
    | _ =>
      let num := s.filter keepDigitDotMinus
      match pyFloatParseL num with
      | some (PyNum.fin q) => pyRound q
      | _ => 0

/-- `to_int` on a cell: `to_int(None)` is 0 (line 146), and a NaN cell
stringifies to `"nan"` which is also 0. -/
def to_intCell (c : Option String) : ℤ :=
  match c with
  | some s => to_int s
  | none => 0

/-! ### Column aliases and `find_col` (lines 50-82, 123-136) -/

/-- The `ALIAS` table (lines 50-82): tolerated header spellings per logical
column.  Python sets are modelled as lists; only membership and existential
scans over them occur, so order is irrelevant. -/
def ALIAS : String → List String
  | "NumeroArticulo" =>
    ["numeroarticulo", "númeroartículo", "numero_articulo", "articulo", "artículo",
     "codigo", "código", "cod articulo", "cod. articulo", "nº artículo", "nº articulo"]
  | "ReferenciaProveedor" =>
    ["referenciaproveedor", "refproveedor", "referencia proveedor", "ref. fabricante",
     "catalogo", "nº catalogo", "nº catálogo", "referencia", "ref fabricante"]
  | "Descripcion" =>
    ["descripcion", "descripción", "descripcion articulo", "descripción artículo",
     "articulo descripcion", "nombre", "nombre articulo"]
  | "CodigoEAN" =>
    ["codigoean", "ean", "codigo ean", "código ean", "cod. barras", "codigo barras",
     "código barras"]
  | "Precio" =>
    ["1. lista precio de ventas", "precio", "pvp", "precio venta", "precio de venta"]
  | "NombreProveedor" =>
    ["nombreproveedor", "proveedor", "nombre proveedor", "razon social proveedor",
     "razón social proveedor"]
  | "CodigoProveedor" =>
    ["codigoproveedor", "cod proveedor", "código proveedor", "id proveedor"]
  | "CodigoAlmacen" =>
    ["codigo almacen", "almacen", "almacén", "código almacén", "cod. almacén", "cod almacen"]
  | "EnStock" =>
    ["en stock", "stock", "existencias", "cantidad", "disponible", "qty"]
  | _ => []

/-- `normalize_cols` (lines 118-121): header labels are stringified and
trimmed before resolution. -/
def normalize_cols (cols : List String) : List String := cols.map pyStrip

/-- First loop of `find_col` (lines 128-130): first header whose normalized
form is exactly in the alias set, in table order. -/
def findExact (wants : List String) : List String → Option String
  | [] => none
  | c :: cs => if wants.contains (strip c) then some c else findExact wants cs

/-- Second loop of `find_col` (lines 132-135): first header some alias of
which is a substring of its normalized form (`w in n` — one direction only). -/
def findSub (wants : List String) : List String → Option String
  | [] => none
  | c :: cs => if wants.any (fun w => pyIn w (strip c)) then some c else findSub wants cs

/-- `find_col` (lines 123-136) over a table's header list. -/
def find_col (cols : List String) (target_key : String) : Option String :=
  match findExact (ALIAS target_key) cols with
  | some c => some c
  | none => findSub (ALIAS target_key) cols

/-- Modelled from the claim (C9): resolution with BIDIRECTIONAL substring
fallback — a header is accepted if its normalized form contains an alias OR
an alias contains it.  Kept for comparison with `find_col`. -/
def find_col_specC9 (cols : List String) (target_key : String) : Option String :=
  let wants := ALIAS target_key
  match cols.find? (fun c => wants.contains (strip c)) with
  | some c => some c
  | none => cols.find? (fun c => wants.any (fun w => pyIn w (strip c) || pyIn (strip c) w))

/-! ### Centers (lines 35-47) -/

/-- One entry of the `CENTERS` table. -/
structure CenterCfg where
  id : String
  almacen : String
  out_dir : String
deriving DecidableEq

/-- `CENTERS` (lines 35-40), in insertion order. -/
def CENTERS : List CenterCfg :=
  [⟨"coll", "1", "coll"⟩, ⟨"calvia", "2", "calvia"⟩,
   ⟨"alcudia", "3", "alcudia"⟩, ⟨"santanyi", "4", "santanyi"⟩]

/-- `ALMACEN_TO_CENTER` (lines 42-47). -/
def ALMACEN_TO_CENTER : List (String × String) :=
  [("1", "coll"), ("2", "calvia"), ("3", "alcudia"), ("4", "santanyi")]

/-- The warehouse codes kept by the `isin` filter (line 267). -/
def ALMACEN_CODES : List String := ALMACEN_TO_CENTER.map Prod.fst

/-! ### The articles table `df_base` (lines 233-258)

`ReferenciaProveedor`, `NumeroArticulo`, `Descripcion` and `Precio` are
required columns (line 213); `CodigoEAN` and a direct `NombreProveedor`
column are optional, recorded by the two flags.  The supplier-code join
branch (lines 245-256) is omitted from the exported-row model: it merges a
table that reintroduces the already-present `NombreProveedor` column, so
pandas suffixes both copies and the subsequent `df_base["NombreProveedor"]`
access raises `KeyError`; a run entering that branch aborts before any
output is produced. -/

/-- One row of the articles source, as resolved logical columns. -/
structure BaseSrcRow where
  num : Option String
  ref : Option String
  desc : Option String
  ean : Option String
  precio : Option String
  nomprov : Option String
deriving DecidableEq

/-- One row of `df_base` after subsetting and coercion. -/
structure BaseRow where
  numeroArticulo : String
  referenciaProveedor : String
  descripcion : String
  codigoEAN : String
  nombreProveedor : String
  precio : String
deriving DecidableEq

/-- `astype(str).str.strip()` on one cell (lines 234-238). -/
def strCol (c : Option String) : String := pyStrip (astypeStr c)

/-- Line 258: `str.replace(",", ".", regex=False)` on the price text.  The
preceding `fillna("")`/`astype(str)` are no-ops here because line 238 already
stringified every cell. -/
def normPrecio (s : String) : String := ⟨replaceCharList s.data ',' ['.']⟩

/-- One row of `df_base` (lines 233-258) from one source row. -/
def mkBaseRow (hasEan hasNom : Bool) (r : BaseSrcRow) : BaseRow :=
  { numeroArticulo := strCol r.num
    referenciaProveedor := strCol r.ref
    descripcion := strCol r.desc
    codigoEAN := if hasEan then strCol r.ean else ""
    nombreProveedor := if hasNom then strCol r.nomprov else ""
    precio := normPrecio (strCol r.precio) }

/-- `df_base` (lines 233-258). -/
def dfBase (hasEan hasNom : Bool) (base : List BaseSrcRow) : List BaseRow :=
  base.map (mkBaseRow hasEan hasNom)

/-! ### Stock aggregation (lines 260-269, 298-303) -/

/-- One row of the stock source, as resolved logical columns. -/
structure StockSrcRow where
  num : Option String
  alm : Option String
  qty : Option String
deriving DecidableEq

/-- One cleaned stock row. -/
structure StRow where
  num : String
  alm : String
  qty : ℤ
deriving DecidableEq

/-- `dropna()` over the three selected stock columns (line 261). -/
def dropnaStock (stock : List StockSrcRow) : List (String × String × String) :=
  stock.filterMap (fun r =>
    match r.num, r.alm, r.qty with
    | some a, some b, some c => some (a, b, c)
    | _, _, _ => none)

/-- Lines 263-265: strip the id and warehouse columns, coerce quantities. -/
def stClean (stock : List StockSrcRow) : List StRow :=
  (dropnaStock stock).map (fun t => ⟨pyStrip t.1, pyStrip t.2.1, to_int t.2.2⟩)

/-- Line 267: keep only rows whose warehouse code is one of `1..4`. -/
def stIsin (stock : List StockSrcRow) : List StRow :=
  (stClean stock).filter (fun r => ALMACEN_CODES.contains r.alm)

/-- The distinct `(NumeroArticulo, CodigoAlmacen)` group keys of line 269.
pandas sorts group keys; the order is unobservable downstream (groups are
only looked up by key), so first-occurrence order is used. -/
def groupKeys (stock : List StockSrcRow) : List (String × String) :=
  ((stIsin stock).map (fun r => (r.num, r.alm))).dedup

/-- `groupby(["NumeroArticulo", "CodigoAlmacen"]).sum()` (line 269). -/
def groupStock (stock : List StockSrcRow) : List ((String × String) × ℤ) :=
  (groupKeys stock).map (fun k =>
    (k, (((stIsin stock).filter (fun r => r.num = k.1 ∧ r.alm = k.2)).map StRow.qty).sum))

/-- Line 299: the slice of the grouped stock for one warehouse code, with
`EnStock` renamed to `Stock`. -/
def stockForCenter (stock : List StockSrcRow) (code : String) : List (String × ℤ) :=
  ((groupStock stock).filter (fun g => g.1.2 = code)).map (fun g => (g.1.1, g.2))

/-- The total cleaned quantity of the kept stock rows for one article and one
warehouse code (the value the group for that key sums to, 0 with no rows). -/
def stSliceSum (stock : List StockSrcRow) (code a : String) : ℤ :=
  (((stIsin stock).filter (fun r => r.num = a ∧ r.alm = code)).map StRow.qty).sum

/-- The stock cells a left merge on `NumeroArticulo` (line 302) attaches to
one base row: one `none` cell when the slice has no matching key, otherwise
one cell per matching slice row. -/
def leftMergeRow (stc : List (String × ℤ)) (num : String) : List (Option ℤ) :=
  match stc.filter (fun p => p.1 = num) with
  | [] => [none]
  | ms => ms.map (fun p => some p.2)

/-- Lines 303 and 331: `fillna(0)` turns the missing-stock cell into 0, and
`to_int` / `int` applied to a value that is already a Python integer return
it unchanged (its decimal string parses back exactly; stock totals are far
below the 2^53 exactness bound of a double), so the composite on the merged
cell is `Option.getD 0`. -/
def fillnaToInt (v : Option ℤ) : ℤ := v.getD 0

/-- `df_out` before the EAN fix (lines 302-303): every base row paired with
each stock cell the merge attaches to it. -/
def mergedRows (db : List BaseRow) (stc : List (String × ℤ)) : List (BaseRow × ℤ) :=
  (db.map (fun r => (leftMergeRow stc r.numeroArticulo).map (fun v => (r, fillnaToInt v)))).flatten

/-! ### The per-center EAN master map (lines 271-289) and EAN fix (305-315) -/

/-- One row of a prior `<center>/Articulos.csv`, read back with `dtype=str`. -/
structure PrevRow where
  num : Option String
  ean : Option String
deriving DecidableEq

/-- Insert into a Python dict modelled as an association list: overwrite the
binding in place if the key exists, else append. -/
def dictSet (d : List (String × String)) (k v : String) : List (String × String) :=
  if d.any (fun p => p.1 = k) then d.map (fun p => if p.1 = k then (k, v) else p)
  else d ++ [(k, v)]

/-- Python dict lookup. -/
def dictGet (d : List (String × String)) (k : String) : Option String :=
  (d.find? (fun p => p.1 = k)).map Prod.snd

/-- The prior-file EAN of one row, as lines 280-281 compute it: the stringified,
stripped `CodigoEAN` cell when that column exists, `""` otherwise. -/
def eanOfPrev (hasEanCol : Bool) (r : PrevRow) : String :=
  if hasEanCol then pyStrip (astypeStr r.ean) else ""

/-- Lines 276-286: the map from article id to EAN taken from a center's prior
output file.  Only rows with a nonempty id and a nonempty EAN are recorded
(`if num and ean_prev`); `hasEanCol` is whether the prior file has a
`CodigoEAN` column (without it `ean_prev` is `""` and nothing is recorded).
An absent or unreadable prior file behaves as `prev = []`. -/
def buildPriorMap (hasEanCol : Bool) (prev : List PrevRow) : List (String × String) :=
  prev.foldl (fun d r =>
    let num := pyStrip (astypeStr r.num)
    let ean := eanOfPrev hasEanCol r
    if num ≠ "" ∧ ean ≠ "" then dictSet d num ean else d) []

/-- Lines 288-289: the override JSON is folded on top of the prior map with
`dict.update`, its values stringified and stripped — including empty ones,
which therefore overwrite a prior binding. -/
def buildKeep (hasEanCol : Bool) (prev : List PrevRow) (ov : List (String × String)) :
    List (String × String) :=
  ov.foldl (fun d kv => dictSet d kv.1 (pyStrip kv.2)) (buildPriorMap hasEanCol prev)

/-- The loop body of lines 309-314: replace the row's EAN by the master value
only when the article is bound in `keep` to a truthy (nonempty) value. -/
def eanFix (keep : List (String × String)) (num ean : String) : String :=
  let e := pyStrip ean
  match dictGet keep num with
  | some v => if v ≠ "" then v else e
  | none => e

/-- Lines 306-315: the EAN column rewrite, skipped when the master map is
empty (`if keep:`). -/
def applyKeep (keep : List (String × String)) (rows : List (BaseRow × ℤ)) :
    List (BaseRow × ℤ) :=
  if keep = [] then rows
  else rows.map (fun rv =>
    ({ rv.1 with codigoEAN := eanFix keep rv.1.numeroArticulo rv.1.codigoEAN }, rv.2))

/-! ### Row ordering (lines 317-323)

`pd.to_numeric(..., errors="coerce")` keyed with `NaN` placed last, ties
broken by the id string.  pandas' default quicksort is not stable, so any
order satisfying the sort keys is a faithful model; insertion sort is used
for its proof support. -/

/-- `pd.to_numeric(s, errors="coerce")` on one id string: parse failures
become NaN. -/
def to_numeric (s : String) : PyNum :=
  match pyFloatParse s with
  | some v => v
  | none => PyNum.nan

/-- The `_sort` column ordering: -inf, finite values by magnitude, +inf, NaN
last — embedded into a lexicographic pair. -/
def pyNumEmb (v : PyNum) : ℕ ×ₗ ℚ :=
  toLex (match v with
    | PyNum.ninf => ((0 : ℕ), (0 : ℚ))
    | PyNum.fin q => (1, q)
    | PyNum.pinf => (2, 0)
    | PyNum.nan => (3, 0))

/-- The full sort key of lines 319-320: numeric value first, id string second
(string order is code-point lexicographic, i.e. the order of the character
list). -/
abbrev SortKey : Type := (ℕ ×ₗ ℚ) ×ₗ List Char

/-- Sort key of one id string. -/
def sortKeyOf (numStr : String) : SortKey := toLex (pyNumEmb (to_numeric numStr), numStr.data)

/-- Row comparison used to sort `df_out`. -/
def workLe (a b : BaseRow × ℤ) : Prop :=
  sortKeyOf a.1.numeroArticulo ≤ sortKeyOf b.1.numeroArticulo

instance : DecidableRel workLe := fun a b =>
  inferInstanceAs (Decidable (sortKeyOf a.1.numeroArticulo ≤ sortKeyOf b.1.numeroArticulo))

instance : IsTotal (BaseRow × ℤ) workLe :=
  ⟨fun a b => le_total (sortKeyOf a.1.numeroArticulo) (sortKeyOf b.1.numeroArticulo)⟩

instance : IsTrans (BaseRow × ℤ) workLe :=
  ⟨fun _ _ _ hab hbc => le_trans hab hbc⟩

/-- The sort of lines 317-323. -/
def sortWork (rows : List (BaseRow × ℤ)) : List (BaseRow × ℤ) :=
  rows.insertionSort workLe

/-! ### Final projection and serialization (lines 326-346) -/

/-- One row of the exported `Articulos.csv`. -/
structure OutRow where
  numeroArticulo : String
  referenciaProveedor : String
  descripcion : String
  codigoEAN : String
  nombreProveedor : String
  precio : String
  stock : ℤ
deriving DecidableEq

/-- The column projection of lines 326-331 on one row. -/
def toOutRow (rv : BaseRow × ℤ) : OutRow :=
  ⟨rv.1.numeroArticulo, rv.1.referenciaProveedor, rv.1.descripcion, rv.1.codigoEAN,
   rv.1.nombreProveedor, rv.1.precio, rv.2⟩

/-- The rows of one center's `Articulos.csv` for one run (lines 293-331),
in file order. -/
def exportCenterRows (hasEan hasNom : Bool) (base : List BaseSrcRow)
    (hasPrevE : Bool) (prev : List PrevRow) (ov : List (String × String))
    (stock : List StockSrcRow) (code : String) : List OutRow :=
  let db := dfBase hasEan hasNom base
  let merged := mergedRows db (stockForCenter stock code)
  (sortWork (applyKeep (buildKeep hasPrevE prev ov) merged)).map toOutRow

/-- The fixed output header (lines 326-329). -/
def OUT_COLUMNS : List String :=
  ["NumeroArticulo", "ReferenciaProveedor", "Descripcion", "CodigoEAN",
   "NombreProveedor", "Precio", "Stock"]

/-- csv QUOTE_MINIMAL: quote a field containing the separator, a quote, or a
line break. -/
def needsQuote (s : String) : Bool :=
  s.data.any (fun c => c = ';' || c = '"' || c = '\n' || c = '\x0d')

/-- One serialized csv field. -/
def csvField (s : String) : String :=
  if needsQuote s then ⟨'"' :: (replaceCharList s.data '"' ['"', '"']) ++ ['"']⟩ else s

/-- One serialized csv line. -/
def csvLine (fields : List String) : String :=
  String.intercalate ";" (fields.map csvField) ++ "\n"

/-- The serialized fields of one output row. -/
def outFields (r : OutRow) : List String :=
  [r.numeroArticulo, r.referenciaProveedor, r.descripcion, r.codigoEAN,
   r.nombreProveedor, r.precio, toString r.stock]

/-- `df_out.to_csv(index=False, sep=";")` (line 336). -/
def to_csv (rows : List OutRow) : String :=
  String.join (csvLine OUT_COLUMNS :: rows.map (fun r => csvLine (outFields r)))

/-- Lines 337-344: read the existing file if any, write only when the new
serialization differs, report whether a write occurred.  Returns the changed
flag and the file content afterwards (`none` = still absent, impossible
here). -/
def exportWrite (csv_new : String) (csv_old : Option String) : Bool × Option String :=
  if csv_old = some csv_new then (false, csv_old) else (true, some csv_new)

/-- One center's export step (lines 333-346) from its reconciled rows and the
current content of its output file. -/
def exportCenter (rows : List OutRow) (old : Option String) : Bool × Option String :=
  exportWrite (to_csv rows) old

/-! ### Claim-side definitions

Each `...Claim`/`spec...` definition below follows the words of a claim of
the specification, for comparison against the source-derived definitions
above. -/

/-- Modelled from the claim (C1): the barcode precedence chain — the first
non-empty value among the override-map value, the prior-output barcode and
the ingest barcode, else the empty string (which the ingest value already is
in that case). -/
def chainSpecC1 (ov prior : Option String) (ingest : String) : String :=
  ((([ov, prior].filterMap id).filter (· ≠ "")).headD ingest)

/-- Decimal rendering with exactly two decimal places (for the claimed
price format). -/
def formatTwoDec (q : ℚ) : String :=
  let n := pyRound (q * 100)
  let m := n.natAbs
  (if n < 0 then "-" else "") ++ toString (m / 100) ++ "." ++
    (if m % 100 < 10 then "0" else "") ++ toString (m % 100)

/-- Modelled from the claim (C2): the exported price obtained by numerically
parsing the normalized decimal string, a missing or unparsable cell giving
exactly `0.00`, rounded to two decimal places. -/
def specPriceC2 (cell : Option String) : String :=
  match cell with
  | none => "0.00"
  | some s =>
    match pyFloatParse (normPrecio (pyStrip s)) with
    | some (PyNum.fin q) => formatTwoDec q
    | _ => "0.00"

/-- A cell holds (after trimming) the given identifier. -/
def cellIs (c : Option String) (x : String) : Bool :=
  match c with
  | some t => pyStrip t = x
  | none => false

/-- The claim's (C3) stock aggregate: the sum of the coerced quantities of
every stock source row whose article identifier matches `a` and whose
warehouse code equals `code`. -/
def stockSumSpec (stock : List StockSrcRow) (code a : String) : ℤ :=
  ((stock.filter (fun s => cellIs s.num a && cellIs s.alm code)).map
    (fun s => to_intCell s.qty)).sum

/-- Modelled from the claim (C6): row order by `Descripcion` first and
`NumeroArticulo` second (lexicographic, spelled with `≤` and `=`). -/
def descIdLe (a b : OutRow) : Prop :=
  (a.descripcion.data ≤ b.descripcion.data ∧ a.descripcion ≠ b.descripcion) ∨
    (a.descripcion = b.descripcion ∧ a.numeroArticulo.data ≤ b.numeroArticulo.data)

instance : DecidableRel descIdLe := fun a b =>
  inferInstanceAs (Decidable
    ((a.descripcion.data ≤ b.descripcion.data ∧ a.descripcion ≠ b.descripcion) ∨
      (a.descripcion = b.descripcion ∧ a.numeroArticulo.data ≤ b.numeroArticulo.data)))

/-- The order the exporter actually sorts by: numeric interpretation of the
article id first (parse failures last), the id string second. -/
def outNumLe (a b : OutRow) : Prop :=
  sortKeyOf a.numeroArticulo ≤ sortKeyOf b.numeroArticulo

instance : DecidableRel outNumLe := fun a b =>
  inferInstanceAs (Decidable (sortKeyOf a.numeroArticulo ≤ sortKeyOf b.numeroArticulo))

/-- The last binding of a key in an association list (what building a Python
dict from the list in order leaves for that key). -/
def lastBinding (l : List (String × String)) (k : String) : Option String :=
  (l.reverse.find? (fun p => p.1 = k)).map Prod.snd

/-- The binding `buildPriorMap` leaves for key `k`: the EAN of the last prior
row with that (nonempty) id and a nonempty EAN. -/
def priorLast (hasEanCol : Bool) (prev : List PrevRow) (k : String) : Option String :=
  (prev.reverse.find? (fun r =>
    decide (pyStrip (astypeStr r.num) = k) && decide (k ≠ "") &&
      decide (eanOfPrev hasEanCol r ≠ ""))).map (eanOfPrev hasEanCol)

/-- Modelled from the claim (C4): keep digits, periods, and a minus sign only
when it leads the string. -/
def keepClaimC4 (l : List Char) : List Char :=
  match l with
  | '-' :: rest => '-' :: rest.filter (fun c => c.isDigit || c = '.')
  | _ => l.filter (fun c => c.isDigit || c = '.')

/-- Modelled from the claim (C4), as stated: direct numeric parse of the raw
value; on failure strip to digits, periods and a leading minus sign and
retry; still-failing or NaN gives zero. -/
def claimToIntC4 (x : String) : ℤ :=
  match pyFloatParse x with
  | some (PyNum.fin q) => pyRound q
  | some PyNum.nan => 0
  | _ =>
    match pyFloatParseL (keepClaimC4 x.data) with
    | some (PyNum.fin q) => pyRound q
    | _ => 0

/-- The amended C4 coercion: trim and normalize commas to periods, then parse
— a finite value rounds half-to-even, NaN is zero, and an infinite or failed
parse falls back to the salvage filter keeping digits, periods and every
minus sign, whose result again rounds if finite and is zero otherwise. -/
def amendedToIntC4 (x : String) : ℤ :=
  let s := replaceCharList (pyStripList x.data) ',' ['.']
  match pyFloatParseL s with
  | some (PyNum.fin q) => pyRound q
  | some PyNum.nan => 0
  | _ =>
    match pyFloatParseL (s.filter keepDigitDotMinus) with
    | some (PyNum.fin q) => pyRound q
    | _ => 0

/-! ## Claims -/

/-- C5 (confirmed): the exporter compares the newly serialized content with
the existing output file and writes only when they differ, reporting whether
a write occurred; running it a second time against identical reconciled
records reports `changed = false` and leaves the file unmodified. -/
theorem c5_export_change_detection (rows : List OutRow) (old : Option String) :
    (exportCenter rows old).1 = decide (old ≠ some (to_csv rows)) ∧
    exportCenter rows (exportCenter rows old).2 = (false, (exportCenter rows old).2) := by
  constructor
  · unfold exportCenter exportWrite
    by_cases h : old = some (to_csv rows) <;> simp [h]
  · unfold exportCenter exportWrite
    by_cases h : old = some (to_csv rows) <;> simp [h]

/-- C7 counterexample: the claim says the file-kind classification depends
only on the file's first 8 bytes and not on the extension.  The code never
reads the file: a file whose content begins with the `PK\x03\x04` zip
signature (spreadsheet per the claim) is classified as delimited text when
its name ends in `.csv`, while the same content under a `.xlsx` name gets
the spreadsheet engine. -/
theorem c7_counterexample :
    specClassifyBySignature [0x50, 0x4B, 0x03, 0x04, 0, 0, 0, 0] = FileKind.zipSpreadsheet ∧
    pick_engine "data.csv" = none ∧
    pick_engine "data.xlsx" = some "openpyxl" :=
  ⟨by decide, by decide, by decide⟩

/-- C7 amended: the classification depends only on the lowercased filename
extension — `.xlsx`/`.xlsm` select the zip-spreadsheet engine, `.xls` the
legacy engine, anything else the delimited-text path; file content is never
consulted. -/
theorem c7_extension_only (p q : String)
    (h : (extChars p).map pyLowerChar = (extChars q).map pyLowerChar) :
    pick_engine p = pick_engine q := by
  unfold pick_engine
  rw [h]

/-- Witness for `c7_extension_only` at two concrete paths sharing a
lowercased extension. -/
theorem c7_extension_only_witness :
    (extChars "a.XLSX").map pyLowerChar = (extChars "b/c.xlsx").map pyLowerChar ∧
    pick_engine "a.XLSX" = pick_engine "b/c.xlsx" :=
  ⟨by decide, c7_extension_only "a.XLSX" "b/c.xlsx" (by decide)⟩

/-- C8 counterexample: a file with a spreadsheet extension on which the Excel
engine raises (`excelParse = none`) makes `read_table` fail outright even
though the semicolon CSV parser would succeed on it — there is no fallback
to the delimited-text path, contrary to the claim. -/
theorem c8_counterexample :
    read_table ⟨"imports/Importacion Stock.xlsx", none, some [["A"]], none⟩
      = Except.error "ERROR leyendo imports/Importacion Stock.xlsx" ∧
    (⟨"imports/Importacion Stock.xlsx", none, some [["A"]], none⟩ : RawFile).csvSemiParse
      = some [["A"]] :=
  ⟨rfl, rfl⟩

/-- C8 amended: for a file classified as a spreadsheet, an exception raised
by the spreadsheet engine is fatal: `read_table` reports the read error and
never attempts the delimited-text path (the CSV fallbacks exist only on the
non-spreadsheet branch). -/
theorem c8_engine_exception_fatal (f : RawFile)
    (h1 : (pick_engine f.path).isSome) (h2 : f.excelParse = none) :
    read_table f = Except.error ("ERROR leyendo " ++ f.path) := by
  unfold read_table
  cases hp : pick_engine f.path with
  | none => rw [hp] at h1; exact absurd h1 (by simp)
  | some e => rw [h2]

/-- Witness for `c8_engine_exception_fatal` at a concrete file. -/
theorem c8_engine_exception_fatal_witness :
    read_table ⟨"imports/Base articulos precio.xlsx", none, none, none⟩
      = Except.error "ERROR leyendo imports/Base articulos precio.xlsx" :=
  c8_engine_exception_fatal ⟨"imports/Base articulos precio.xlsx", none, none, none⟩
    (by decide) rfl

/-! ## Supporting lemmas -/

/-- Whitespace characters are fixed points of the lowercase map. -/
theorem pyLowerChar_space (c : Char) (h : isPySpace c = true) : pyLowerChar c = c := by
  unfold isPySpace at h
  simp only [Bool.or_eq_true, decide_eq_true_eq] at h
  rcases h with ((((h | h) | h) | h) | h) | h <;> subst h <;> decide

/-- A string that lowercases to `nan` parses as a NaN. -/
theorem pyFloatParseL_nan (s : List Char) (h : s.map pyLowerChar = ['n', 'a', 'n']) :
    pyFloatParseL s = some PyNum.nan := by
  have h3 : s.length = 3 := by simpa using congrArg List.length h
  rw [List.length_eq_three] at h3
  obtain ⟨a, b, c, rfl⟩ := h3
  simp only [List.map_cons, List.map_nil, List.cons.injEq, and_true] at h
  obtain ⟨ha, hb, hc⟩ := h
  have hsa : isPySpace a = false := by
    cases hq : isPySpace a
    · rfl
    · rw [pyLowerChar_space a hq] at ha
      subst ha
      exact absurd hq (by decide)
  have hsc : isPySpace c = false := by
    cases hq : isPySpace c
    · rfl
    · rw [pyLowerChar_space c hq] at hc
      subst hc
      exact absurd hq (by decide)
  have hstrip : pyStripList [a, b, c] = [a, b, c] := by
    simp [pyStripList, List.dropWhile_cons, hsa, hsc]
  have ha' : (a = '+') = False := by
    simp only [eq_iff_iff, iff_false]
    intro hh
    rw [hh] at ha
    exact absurd ha (by decide)
  have ha'' : (a = '-') = False := by
    simp only [eq_iff_iff, iff_false]
    intro hh
    rw [hh] at ha
    exact absurd ha (by decide)
  unfold pyFloatParseL
  simp only [hstrip, List.head?_cons, Option.some.injEq, ha', ha'', if_false]
  unfold parseUnsignedPy
  simp only [List.map_cons, List.map_nil, ha, hb, hc]
  rfl

/-- Elements of a single-character replacement come from the replacement text
or are untouched non-pattern characters. -/
theorem mem_replaceCharList {x c : Char} {t l : List Char}
    (h : x ∈ replaceCharList l c t) : x ∈ t ∨ (x ∈ l ∧ x ≠ c) := by
  unfold replaceCharList at h
  rw [List.mem_flatten] at h
  obtain ⟨piece, hp, hx⟩ := h
  rw [List.mem_map] at hp
  obtain ⟨y, hy, rfl⟩ := hp
  by_cases hyc : y = c
  · rw [if_pos hyc] at hx
    exact Or.inl hx
  · rw [if_neg hyc] at hx
    rw [List.mem_singleton] at hx
    subst hx
    exact Or.inr ⟨hy, hyc⟩

/-! ## Claims C4, C2, C9 -/

/-- C4 counterexample: `to_int` is not non-negative — `to_int "-5" = -5` —
and its salvage pass does not follow the claim's description: on `"1,5"` the
code normalizes the comma first and returns 2, while the claim's algorithm
(direct parse of the raw text, then strip to digits, periods and a leading
minus sign) yields 15. -/
theorem c4_counterexample :
    to_int "-5" = -5 ∧ to_int "-5" < 0 ∧ to_int "1,5" = 2 ∧ claimToIntC4 "1,5" = 15 :=
  ⟨by decide, by decide, by decide, by decide⟩

/-- C4 amended (corrected claim): stock coercion never raises and returns an
integer — not necessarily non-negative: it trims and replaces commas by
periods, then attempts a numeric parse; a finite value rounds half-to-even,
NaN gives 0, and a failed or infinite parse falls back to keeping every
digit, period and minus sign (wherever they occur) and retrying, with 0 when
that still fails to parse to a finite value. -/
theorem c4_coercion_amended (x : String) : to_int x = amendedToIntC4 x := by
  simp only [to_int, amendedToIntC4]
  by_cases h : replaceCharList (pyStripList x.data) ',' ['.'] = [] ∨
      (replaceCharList (pyStripList x.data) ',' ['.']).map pyLowerChar = ['n', 'a', 'n']
  · rw [if_pos h]
    rcases h with h | h
    · rw [h]
      rfl
    · rw [pyFloatParseL_nan _ h]
  · rw [if_neg h]

/-- C2 counterexample: the exported price of an ingest cell `" 12,5 "` is the
text `"12.5"`, while the claim's parse-and-round-to-2-places description
produces `"12.50"`; no rounding, parsing or 0.00-defaulting happens. -/
theorem c2_counterexample :
    (mkBaseRow true true ⟨some "A", some "R", some "D", some "E", some " 12,5 ", none⟩).precio
      = "12.5" ∧
    specPriceC2 (some " 12,5 ") = "12.50" ∧ ("12.5" : String) ≠ "12.50" :=
  ⟨by decide, by decide, by decide⟩

/-- C2 amended (corrected claim): the exported Price is the ingest price cell
trimmed with every comma replaced by a period — hence comma-free — with no
numeric parsing, rounding or zero-defaulting; a missing price cell exports as
the text `"nan"`, not `0.00`. -/
theorem c2_price_text_passthrough (hasEan hasNom : Bool) (r : BaseSrcRow) :
    (mkBaseRow hasEan hasNom r).precio = normPrecio (strCol r.precio) ∧
    ',' ∉ (mkBaseRow hasEan hasNom r).precio.data ∧
    (mkBaseRow hasEan hasNom { r with precio := none }).precio = "nan" := by
  refine ⟨rfl, ?_, rfl⟩
  intro hmem
  have h := mem_replaceCharList
    (show ',' ∈ replaceCharList (strCol r.precio).data ',' ['.'] from hmem)
  rcases h with h | ⟨_, hne⟩
  · exact absurd h (by decide)
  · exact hne rfl

/-- The first loop of `find_col` is the first-match scan over exact
normalized-alias hits. -/
theorem findExact_eq_find (wants cols : List String) :
    findExact wants cols = cols.find? (fun c => wants.contains (strip c)) := by
  induction cols with
  | nil => rfl
  | cons c cs ih =>
    unfold findExact
    by_cases hq : wants.contains (strip c) = true
    · rw [if_pos hq]
      rw [@List.find?_cons_of_pos _ (fun c => wants.contains (strip c)) c cs hq]
    · rw [if_neg hq]
      rw [@List.find?_cons_of_neg _ (fun c => wants.contains (strip c)) c cs (by simpa using hq),
        ih]

/-- The second loop of `find_col` is the first-match scan over one-directional
(alias-inside-header) substring hits. -/
theorem findSub_eq_find (wants cols : List String) :
    findSub wants cols = cols.find? (fun c => wants.any (fun w => pyIn w (strip c))) := by
  induction cols with
  | nil => rfl
  | cons c cs ih =>
    unfold findSub
    by_cases hq : wants.any (fun w => pyIn w (strip c)) = true
    · rw [if_pos hq]
      rw [@List.find?_cons_of_pos _ (fun c => wants.any (fun w => pyIn w (strip c))) c cs hq]
    · rw [if_neg hq]
      rw [@List.find?_cons_of_neg _ (fun c => wants.any (fun w => pyIn w (strip c))) c cs
        (by simpa using hq), ih]

/-- C9 counterexample: the header `NumeroArt` normalizes to `numeroart`,
which is a strict substring of the alias `numeroarticulo`; the claimed
bidirectional containment accepts it, but `find_col` only tests
alias-inside-header (`w in n`) and resolves the field to absent. -/
theorem c9_counterexample :
    find_col ["NumeroArt"] "NumeroArticulo" = none ∧
    find_col_specC9 ["NumeroArt"] "NumeroArticulo" = some "NumeroArt" :=
  ⟨by decide, by decide⟩

/-- C9 amended (corrected claim): resolution first returns the first header
(in table order) whose normalized form is exactly in the alias set; only if
none exists does it return the first header whose normalized form CONTAINS
some alias — the reverse containment (header inside alias) is never tested —
and a field with no match resolves to absent. -/
theorem c9_resolution_order (cols : List String) (key : String) :
    find_col cols key =
      match cols.find? (fun c => (ALIAS key).contains (strip c)) with
      | some c => some c
      | none => cols.find? (fun c => (ALIAS key).any (fun w => pyIn w (strip c))) := by
  unfold find_col
  rw [findExact_eq_find, findSub_eq_find]

/-! ## Claim C1: the dict model and the barcode precedence chain -/

/-- Scanning the rewritten list for the overwritten key finds the new binding,
provided the key was present. -/
theorem find?_map_hit (d : List (String × String)) (k v : String)
    (hany : d.any (fun p => p.1 = k) = true) :
    (d.map (fun p => if p.1 = k then (k, v) else p)).find? (fun p => p.1 = k)
      = some (k, v) := by
  induction d with
  | nil => simp at hany
  | cons p t ih =>
    by_cases hp : p.1 = k
    · simp [List.find?, hp]
    · have ht : t.any (fun p => p.1 = k) = true := by simpa [hp] using hany
      simp [List.find?, hp, ih ht]

/-- Rewriting the binding of key `k` does not change what scanning for a
different key `k'` finds. -/
theorem find?_map_miss (d : List (String × String)) (k v k' : String) (hk : ¬ k' = k) :
    (d.map (fun p => if p.1 = k then (k, v) else p)).find? (fun p => p.1 = k')
      = d.find? (fun p => p.1 = k') := by
  induction d with
  | nil => rfl
  | cons p t ih =>
    by_cases hp : p.1 = k
    · have hk2 : ¬ k = k' := fun h => hk h.symm
      simp [List.find?, hp, hk2, ih]
    · simp [List.find?, hp, ih]

/-- Lookup after an overwrite-insert: the inserted key reads the new value,
every other key is unaffected. -/
theorem dictGet_dictSet (d : List (String × String)) (k v k' : String) :
    dictGet (dictSet d k v) k' = if k' = k then some v else dictGet d k' := by
  unfold dictSet dictGet
  by_cases hany : d.any (fun p => p.1 = k) = true
  · rw [if_pos hany]
    by_cases hk : k' = k
    · subst hk
      rw [if_pos rfl, find?_map_hit d k' v hany]
      rfl
    · rw [if_neg hk, find?_map_miss d k v k' hk]
  · rw [if_neg hany]
    by_cases hk : k' = k
    · subst hk
      rw [if_pos rfl, List.find?_append]
      have hnone : d.find? (fun p => p.1 = k') = none := by
        rw [List.find?_eq_none]
        intro p hp hpred
        exact hany (List.any_eq_true.mpr ⟨p, hp, hpred⟩)
      simp [hnone, List.find?]
    · rw [if_neg hk, List.find?_append]
      have h2 : ([(k, v)] : List (String × String)).find? (fun p => p.1 = k') = none := by
        rw [List.find?_eq_none]
        intro x hx
        rw [List.mem_singleton] at hx
        subst hx
        simp only [decide_eq_true_eq]
        exact fun h => hk h.symm
      simp [h2]

/-- Folding `dict.update` over the override pairs: the last binding for a key
wins, with its value stringified and stripped; keys without an override
binding read through to the initial dict. -/
theorem dictGet_foldOv (ov : List (String × String)) (init : List (String × String))
    (k : String) :
    dictGet (ov.foldl (fun d kv => dictSet d kv.1 (pyStrip kv.2)) init) k
      = match ov.reverse.find? (fun p => p.1 = k) with
        | some p => some (pyStrip p.2)
        | none => dictGet init k := by
  induction ov generalizing init with
  | nil => simp
  | cons kv t ih =>
    rw [List.foldl_cons, ih (dictSet init kv.1 (pyStrip kv.2)), List.reverse_cons,
      List.find?_append]
    cases hf : t.reverse.find? (fun p => p.1 = k) with
    | some p => simp
    | none =>
      by_cases hk : kv.1 = k
      · simp [List.find?, hk, dictGet_dictSet]
      · have : ¬ k = kv.1 := fun h => hk h.symm
        simp [List.find?, hk, dictGet_dictSet, this]

/-- Folding the prior-file rows: the binding `buildPriorMap` leaves for a key
is the EAN of the last prior row carrying that (nonempty) id with a nonempty
EAN, read through the initial dict otherwise. -/
theorem dictGet_foldPrior (hasE : Bool) (prev : List PrevRow)
    (init : List (String × String)) (k : String) :
    dictGet (prev.foldl (fun d r =>
        let num := pyStrip (astypeStr r.num)
        let ean := eanOfPrev hasE r
        if num ≠ "" ∧ ean ≠ "" then dictSet d num ean else d) init) k
      = match prev.reverse.find? (fun r =>
            decide (pyStrip (astypeStr r.num) = k) && decide (k ≠ "") &&
              decide (eanOfPrev hasE r ≠ "")) with
        | some r => some (eanOfPrev hasE r)
        | none => dictGet init k := by
  induction prev generalizing init with
  | nil => simp
  | cons r t ih =>
    rw [List.foldl_cons, ih, List.reverse_cons, List.find?_append]
    cases hf : t.reverse.find? (fun r =>
        decide (pyStrip (astypeStr r.num) = k) && decide (k ≠ "") &&
          decide (eanOfPrev hasE r ≠ "")) with
    | some p => simp
    | none =>
      by_cases hn : pyStrip (astypeStr r.num) = k
      · by_cases he : eanOfPrev hasE r = ""
        · simp [List.find?, hn, he]
        · by_cases hk0 : k = ""
          · subst hk0
            simp [List.find?, hn, he]
          · simp [List.find?, hn, he, hk0, dictGet_dictSet]
      · by_cases hg : pyStrip (astypeStr r.num) ≠ "" ∧ eanOfPrev hasE r ≠ ""
        · have : ¬ k = pyStrip (astypeStr r.num) := fun h => hn h.symm
          simp [List.find?, hn, hg, dictGet_dictSet, this]
        · simp [List.find?, hn, hg]

/-- The binding the prior map leaves for a key is `priorLast`. -/
theorem dictGet_buildPrior (hasE : Bool) (prev : List PrevRow) (k : String) :
    dictGet (buildPriorMap hasE prev) k = priorLast hasE prev k := by
  unfold buildPriorMap priorLast
  rw [dictGet_foldPrior]
  cases hf : prev.reverse.find? (fun r =>
      decide (pyStrip (astypeStr r.num) = k) && decide (k ≠ "") &&
        decide (eanOfPrev hasE r ≠ "")) with
  | some p => simp
  | none => simp [dictGet]

/-- The EAN master map resolves a key to the stripped last override binding
when one exists, else to the last valid prior-file EAN. -/
theorem dictGet_buildKeep (hasE : Bool) (prev : List PrevRow)
    (ov : List (String × String)) (k : String) :
    dictGet (buildKeep hasE prev ov) k
      = match ov.reverse.find? (fun p => p.1 = k) with
        | some p => some (pyStrip p.2)
        | none => priorLast hasE prev k := by
  unfold buildKeep
  rw [dictGet_foldOv]
  cases ov.reverse.find? (fun p => p.1 = k) with
  | some p => rfl
  | none => exact dictGet_buildPrior hasE prev k

/-- A prior-map EAN is never empty. -/
theorem priorLast_ne_empty (hasE : Bool) (prev : List PrevRow) (k : String) {p : String}
    (h : priorLast hasE prev k = some p) : p ≠ "" := by
  unfold priorLast at h
  cases hf : prev.reverse.find? (fun r =>
      decide (pyStrip (astypeStr r.num) = k) && decide (k ≠ "") &&
        decide (eanOfPrev hasE r ≠ "")) with
  | none => rw [hf] at h; simp at h
  | some r =>
    rw [hf] at h
    simp only [Option.map_some'] at h
    have hpred := List.find?_some hf
    simp only [Bool.and_eq_true, decide_eq_true_eq] at hpred
    rw [← Option.some.inj h]
    exact hpred.2

/-- C1 counterexample: with a prior-output barcode `B` for article `A`, an
override binding `A ↦ ""` and ingest barcode `X`, the exported barcode is
`X`: the empty override overwrote the prior `B` inside the master map, so the
fall-through skips the prior value, while the claim's chain (first non-empty
of override, prior, ingest) gives `B`. -/
theorem c1_counterexample :
    (exportCenterRows true false
        [⟨some "A", some "R", some "D", some "X", some "1", none⟩]
        true [⟨some "A", some "B"⟩] [("A", "")] [] "1").map OutRow.codigoEAN = ["X"] ∧
    chainSpecC1 (lastBinding [("A", "")] "A") (priorLast true [⟨some "A", some "B"⟩] "A") "X"
      = "B" ∧ ("X" : String) ≠ "B" :=
  ⟨by decide, by decide, by decide⟩

/-- C1 amended (corrected claim): per (center, article), the reconciled
barcode is the stripped override value when the article has an override
binding whose stripped value is non-empty; when the article has an override
binding that strips to the empty string, the prior-output barcode is
DISCARDED (the empty binding overwrote it in the master map) and the ingest
barcode is used; without any override binding, a recorded prior-output
barcode (always non-empty) wins over the ingest barcode; otherwise the
(stripped) ingest barcode, possibly empty, is used.  `eanFix` is the per-row
rewrite the exporter applies with the merged master map `buildKeep`. -/
theorem c1_barcode_precedence (hasE : Bool) (prev : List PrevRow)
    (ov : List (String × String)) (num ingest : String) :
    eanFix (buildKeep hasE prev ov) num ingest =
      match lastBinding ov num with
      | some v => if pyStrip v ≠ "" then pyStrip v else pyStrip ingest
      | none =>
        match priorLast hasE prev num with
        | some p => p
        | none => pyStrip ingest := by
  unfold eanFix lastBinding
  rw [dictGet_buildKeep]
  cases hf : ov.reverse.find? (fun p => p.1 = num) with
  | some p => simp
  | none =>
    simp only [Option.map_none']
    cases hp : priorLast hasE prev num with
    | some p =>
      have hne : p ≠ "" := priorLast_ne_empty hasE prev num hp
      simp [hne]
    | none => simp

/-! ## Stock aggregation lemmas (claims C3 and C10) -/

/-- Filtering then projecting the per-key group list of a nodup key list
selects exactly the group of `(a, code)` when present. -/
theorem aux_keys (keys : List (String × String)) (hnd : keys.Nodup)
    (sk : String × String → ℤ) (code a : String) :
    (((keys.map (fun k => (k, sk k))).filter (fun g => g.1.2 = code)).map
        (fun g => (g.1.1, g.2))).filter (fun p => p.1 = a)
      = if (a, code) ∈ keys then [(a, sk (a, code))] else [] := by
  induction keys with
  | nil => simp
  | cons k t ih =>
    rw [List.nodup_cons] at hnd
    by_cases h1 : k.2 = code
    · by_cases h2 : k.1 = a
      · have hk : k = (a, code) := Prod.ext h2 h1
        have hnotin : (a, code) ∉ t := hk ▸ hnd.1
        simp [List.filter_cons, h1, h2, ih hnd.2, hnotin, hk]
      · have hk' : ¬ (a, code) = k := fun hh => h2 (by rw [← hh])
        simp [List.filter_cons, h1, h2, ih hnd.2, hk']
    · have hk' : ¬ (a, code) = k := fun hh => h1 (by rw [← hh])
      simp [List.filter_cons, h1, ih hnd.2, hk']

/-- A key appears in the group keys exactly when some kept stock row carries
it. -/
theorem mem_groupKeys (stock : List StockSrcRow) (code a : String) :
    (a, code) ∈ groupKeys stock ↔ ∃ r ∈ stIsin stock, r.num = a ∧ r.alm = code := by
  unfold groupKeys
  rw [List.mem_dedup, List.mem_map]
  constructor
  · rintro ⟨r, hr, heq⟩
    exact ⟨r, hr, congrArg Prod.fst heq, congrArg Prod.snd heq⟩
  · rintro ⟨r, hr, h1, h2⟩
    exact ⟨r, hr, by rw [h1, h2]⟩

/-- With no kept row for the key, the slice total is zero. -/
theorem stSliceSum_zero_of_not_mem (stock : List StockSrcRow) (code a : String)
    (h : ¬ ∃ r ∈ stIsin stock, r.num = a ∧ r.alm = code) :
    stSliceSum stock code a = 0 := by
  unfold stSliceSum
  have hnil : (stIsin stock).filter (fun r => r.num = a ∧ r.alm = code) = [] := by
    rw [List.filter_eq_nil_iff]
    intro r hr hc
    exact h ⟨r, hr, by simpa using hc⟩
  rw [hnil]
  rfl

/-- The center slice holds at most one entry per article: exactly the group
of `(a, code)` when some kept row carries it. -/
theorem stc_filter (stock : List StockSrcRow) (code a : String) :
    (stockForCenter stock code).filter (fun p => p.1 = a)
      = if (a, code) ∈ groupKeys stock then [(a, stSliceSum stock code a)] else [] := by
  unfold stockForCenter groupStock stSliceSum
  exact aux_keys (groupKeys stock) (List.nodup_dedup _)
    (fun k => (((stIsin stock).filter (fun r => r.num = k.1 ∧ r.alm = k.2)).map StRow.qty).sum)
    code a

/-- What the left merge attaches to one article: one cell, the group total
when the article has stock in the center's warehouse and a hole otherwise. -/
theorem leftMergeRow_stc (stock : List StockSrcRow) (code a : String) :
    leftMergeRow (stockForCenter stock code) a
      = [if (a, code) ∈ groupKeys stock then some (stSliceSum stock code a) else none] := by
  unfold leftMergeRow
  rw [stc_filter]
  by_cases hm : (a, code) ∈ groupKeys stock
  · simp [hm]
  · simp [hm]

/-- The merged table is one row per base row, carrying the slice total of its
article (0 when the article has no stock row for the center). -/
theorem mergedRows_stc (db : List BaseRow) (stock : List StockSrcRow) (code : String) :
    mergedRows db (stockForCenter stock code)
      = db.map (fun r => (r, stSliceSum stock code r.numeroArticulo)) := by
  unfold mergedRows
  induction db with
  | nil => rfl
  | cons r t ih =>
    simp only [List.map_cons, List.flatten_cons, ih]
    rw [leftMergeRow_stc]
    by_cases hm : (r.numeroArticulo, code) ∈ groupKeys stock
    · simp [hm, fillnaToInt]
    · have h0 : stSliceSum stock code r.numeroArticulo = 0 :=
        stSliceSum_zero_of_not_mem stock code r.numeroArticulo
          (fun hex => hm ((mem_groupKeys stock code r.numeroArticulo).mpr hex))
      simp [hm, fillnaToInt, h0]

/-- Filtering a mapped list is mapping the filtered preimages. -/
theorem filter_map_swap {α β : Type} (f : α → β) (p : β → Bool) (l : List α) :
    (l.map f).filter p = (l.filter (fun x => p (f x))).map f := by
  induction l with
  | nil => rfl
  | cons a t ih =>
    by_cases h : p (f a) = true
    · simp [List.filter_cons, h, ih]
    · simp [List.filter_cons, h, ih]

/-- For a genuine center code, the warehouse `isin` filter is redundant under
the per-center slice condition. -/
theorem stIsin_filter_slice (stock : List StockSrcRow) (code a : String)
    (hcode : code ∈ ALMACEN_CODES) :
    (stIsin stock).filter (fun r => r.num = a ∧ r.alm = code)
      = (stClean stock).filter (fun r => r.num = a ∧ r.alm = code) := by
  unfold stIsin
  rw [List.filter_filter]
  apply List.filter_congr
  intro r _
  by_cases hp : r.num = a ∧ r.alm = code
  · have hc : ALMACEN_CODES.contains r.alm = true := by
      rw [hp.2]
      fin_cases hcode <;> decide
    simp [hp, hc]
    exact hcode
  · simp [hp]

/-- The cleaned slice total equals the claim's aggregate over the raw stock
source, for a genuine center code. -/
theorem stSliceSum_eq_spec (stock : List StockSrcRow) (code a : String)
    (hcode : code ∈ ALMACEN_CODES) :
    stSliceSum stock code a = stockSumSpec stock code a := by
  unfold stSliceSum
  rw [stIsin_filter_slice stock code a hcode]
  unfold stClean
  rw [filter_map_swap, List.map_map]
  unfold stockSumSpec
  induction stock with
  | nil => rfl
  | cons s t ih =>
    rcases s with ⟨n, al, q⟩
    cases n with
    | none => simpa [dropnaStock, List.filterMap_cons, cellIs] using ih
    | some ns =>
      cases al with
      | none => simpa [dropnaStock, List.filterMap_cons, cellIs] using ih
      | some als =>
        by_cases h1 : pyStrip ns = a
        · by_cases h2 : pyStrip als = code
          · cases q with
            | none =>
              simpa [dropnaStock, List.filterMap_cons, List.filter_cons, cellIs, h1, h2,
                to_intCell] using ih
            | some qs =>
              simpa [dropnaStock, List.filterMap_cons, List.filter_cons, cellIs, h1, h2,
                to_intCell] using ih
          · cases q with
            | none =>
              simpa [dropnaStock, List.filterMap_cons, List.filter_cons, cellIs, h1, h2] using ih
            | some qs =>
              simpa [dropnaStock, List.filterMap_cons, List.filter_cons, cellIs, h1, h2] using ih
        · cases q with
          | none =>
            simpa [dropnaStock, List.filterMap_cons, List.filter_cons, cellIs, h1] using ih
          | some qs =>
            simpa [dropnaStock, List.filterMap_cons, List.filter_cons, cellIs, h1] using ih

/-- Slice totals add over a split of the stock source. -/
theorem stSliceSum_append (x y : List StockSrcRow) (code a : String) :
    stSliceSum (x ++ y) code a = stSliceSum x code a + stSliceSum y code a := by
  unfold stSliceSum stIsin stClean dropnaStock
  rw [List.filterMap_append, List.map_append, List.filter_append, List.filter_append,
    List.map_append, List.sum_append]

/-- A single stock row whose (stripped) article id differs from `a`
contributes nothing to `a`'s slice total. -/
theorem stSliceSum_single_ne (s : StockSrcRow) (code a : String)
    (h : ∀ t, s.num = some t → pyStrip t ≠ a) :
    stSliceSum [s] code a = 0 := by
  rcases s with ⟨n, al, q⟩
  cases n with
  | none => simp [stSliceSum, stIsin, stClean, dropnaStock]
  | some ns =>
    cases al with
    | none => simp [stSliceSum, stIsin, stClean, dropnaStock]
    | some als =>
      cases q with
      | none => simp [stSliceSum, stIsin, stClean, dropnaStock]
      | some qs =>
        have hne : pyStrip ns ≠ a := h ns rfl
        by_cases hc : pyStrip als ∈ ALMACEN_CODES
        · simp [stSliceSum, stIsin, stClean, dropnaStock, List.filter_cons, hc, hne]
        · simp [stSliceSum, stIsin, stClean, dropnaStock, List.filter_cons, hc, hne]

/-! ## Claims C3, C6, C10 -/

/-- C3 (confirmed): for every center of the enumeration and every article row
of its exported file, the exported Stock equals the sum of the coerced
quantities of the stock source rows whose (stripped) article id matches the
row's and whose (stripped) warehouse code equals the center's code; rows with
codes outside the enumeration are excluded by the slice condition, and an
article with no matching row gets the empty sum 0. -/
theorem c3_stock_aggregation (hasEan hasNom : Bool) (base : List BaseSrcRow)
    (hasPrevE : Bool) (prev : List PrevRow) (ov : List (String × String))
    (stock : List StockSrcRow) (cfg : CenterCfg) (hc : cfg ∈ CENTERS) :
    ∀ out ∈ exportCenterRows hasEan hasNom base hasPrevE prev ov stock cfg.almacen,
      out.stock = stockSumSpec stock cfg.almacen out.numeroArticulo := by
  have hcode : cfg.almacen ∈ ALMACEN_CODES := by fin_cases hc <;> decide
  intro out hout
  simp only [exportCenterRows] at hout
  rw [mergedRows_stc] at hout
  rw [List.mem_map] at hout
  obtain ⟨rv, hrv, rfl⟩ := hout
  have hrv2 : rv ∈ applyKeep (buildKeep hasPrevE prev ov)
      ((dfBase hasEan hasNom base).map
        (fun r => (r, stSliceSum stock cfg.almacen r.numeroArticulo))) :=
    (List.perm_insertionSort workLe _).mem_iff.mp hrv
  unfold applyKeep at hrv2
  by_cases hk : buildKeep hasPrevE prev ov = []
  · rw [if_pos hk] at hrv2
    rw [List.mem_map] at hrv2
    obtain ⟨r, hr, rfl⟩ := hrv2
    exact stSliceSum_eq_spec stock cfg.almacen r.numeroArticulo hcode
  · rw [if_neg hk] at hrv2
    rw [List.mem_map] at hrv2
    obtain ⟨rv0, hrv0, rfl⟩ := hrv2
    rw [List.mem_map] at hrv0
    obtain ⟨r, hr, rfl⟩ := hrv0
    exact stSliceSum_eq_spec stock cfg.almacen r.numeroArticulo hcode

/-- Witness for `c3_stock_aggregation`: article `A` with rows of 2 and 3 in
warehouse 1 and a row of 9 in the out-of-range warehouse 5 exports stock 5
for the `coll` center. -/
theorem c3_stock_aggregation_witness :
    (⟨"A", "R", "D", "E", "", "1", 5⟩ : OutRow).stock
      = stockSumSpec [⟨some "A", some "1", some "2"⟩, ⟨some "A", some "1", some "3"⟩,
          ⟨some "A", some "5", some "9"⟩] "1" "A" :=
  c3_stock_aggregation true false [⟨some "A", some "R", some "D", some "E", some "1", none⟩]
    true [] [] [⟨some "A", some "1", some "2"⟩, ⟨some "A", some "1", some "3"⟩,
      ⟨some "A", some "5", some "9"⟩] ⟨"coll", "1", "coll"⟩ (by decide)
    ⟨"A", "R", "D", "E", "", "1", 5⟩ (by decide)

/-- C6 counterexample: two articles with ids `10` and `2` and descriptions
`A` and `B` export in the order `2, 10` (numeric id order), which is not
sorted by Description (`B` before `A`). -/
theorem c6_counterexample :
    exportCenterRows true true
        [⟨some "10", some "", some "A", some "", some "1", some ""⟩,
         ⟨some "2", some "", some "B", some "", some "1", some ""⟩] true [] [] [] "1"
      = [⟨"2", "", "B", "", "", "1", 0⟩, ⟨"10", "", "A", "", "", "1", 0⟩] ∧
    ¬ List.Sorted descIdLe
        [(⟨"2", "", "B", "", "", "1", 0⟩ : OutRow), ⟨"10", "", "A", "", "", "1", 0⟩] :=
  ⟨by decide, by decide⟩

/-- C6 amended (corrected claim): for every center, the exported rows are
sorted by the numeric interpretation of the ArticleId (rows whose id does not
parse as a number last), with ties compared on the id string — not by
Description. -/
theorem c6_sorted_by_numeric_id (hasEan hasNom : Bool) (base : List BaseSrcRow)
    (hasPrevE : Bool) (prev : List PrevRow) (ov : List (String × String))
    (stock : List StockSrcRow) (code : String) :
    List.Sorted outNumLe (exportCenterRows hasEan hasNom base hasPrevE prev ov stock code) := by
  simp only [exportCenterRows]
  have hs : List.Sorted workLe (sortWork (applyKeep (buildKeep hasPrevE prev ov)
      (mergedRows (dfBase hasEan hasNom base) (stockForCenter stock code)))) :=
    List.sorted_insertionSort workLe _
  exact List.Pairwise.map toOutRow (fun a b h => h) hs

/-- C10 (confirmed): for every center, the article ids of the exported rows
are a permutation of the (stripped) article ids of the articles source — one
output row per articles-source row, duplicates kept — and appending a stock
row whose article id does not occur among the source ids leaves the whole
exported file unchanged (the row is silently dropped). -/
theorem c10_output_articles (hasEan hasNom : Bool) (base : List BaseSrcRow)
    (hasPrevE : Bool) (prev : List PrevRow) (ov : List (String × String))
    (stock : List StockSrcRow) (code : String) :
    ((exportCenterRows hasEan hasNom base hasPrevE prev ov stock code).map
        OutRow.numeroArticulo).Perm (base.map (fun r => strCol r.num)) ∧
    ∀ s : StockSrcRow,
      (∀ t, s.num = some t → pyStrip t ∉ base.map (fun r => strCol r.num)) →
      exportCenterRows hasEan hasNom base hasPrevE prev ov (stock ++ [s]) code
        = exportCenterRows hasEan hasNom base hasPrevE prev ov stock code := by
  constructor
  · simp only [exportCenterRows]
    rw [mergedRows_stc, List.map_map]
    have hperm : List.Perm
        (sortWork (applyKeep (buildKeep hasPrevE prev ov)
          ((dfBase hasEan hasNom base).map
            (fun r => (r, stSliceSum stock code r.numeroArticulo)))))
        (applyKeep (buildKeep hasPrevE prev ov)
          ((dfBase hasEan hasNom base).map
            (fun r => (r, stSliceSum stock code r.numeroArticulo)))) :=
      List.perm_insertionSort workLe _
    refine (hperm.map _).trans ?_
    have heq : (applyKeep (buildKeep hasPrevE prev ov)
        ((dfBase hasEan hasNom base).map
          (fun r => (r, stSliceSum stock code r.numeroArticulo)))).map
            (OutRow.numeroArticulo ∘ toOutRow)
        = base.map (fun r => strCol r.num) := by
      unfold applyKeep
      by_cases hk : buildKeep hasPrevE prev ov = []
      · rw [if_pos hk]
        simp [dfBase, List.map_map, Function.comp, mkBaseRow, toOutRow]
      · rw [if_neg hk]
        simp [dfBase, List.map_map, Function.comp, mkBaseRow, toOutRow]
    rw [heq]
  · intro s hs
    simp only [exportCenterRows]
    rw [mergedRows_stc, mergedRows_stc]
    have hmap : (dfBase hasEan hasNom base).map
        (fun r => (r, stSliceSum (stock ++ [s]) code r.numeroArticulo))
        = (dfBase hasEan hasNom base).map
          (fun r => (r, stSliceSum stock code r.numeroArticulo)) := by
      apply List.map_congr_left
      intro r hr
      have hmem : r.numeroArticulo ∈ base.map (fun r => strCol r.num) := by
        unfold dfBase at hr
        rw [List.mem_map] at hr
        obtain ⟨r0, hr0, rfl⟩ := hr
        exact List.mem_map.mpr ⟨r0, hr0, rfl⟩
      have h1 : stSliceSum [s] code r.numeroArticulo = 0 :=
        stSliceSum_single_ne s code r.numeroArticulo
          (fun t ht he => (hs t ht) (he ▸ hmem))
      rw [stSliceSum_append, h1, add_zero]
    rw [hmap]

/-- Witness for `c10_output_articles`: a stock row for the unknown article
`Z` leaves the exported file for article `A` unchanged. -/
theorem c10_output_articles_witness :
    exportCenterRows true false [⟨some "A", some "R", some "D", some "E", some "1", none⟩]
        true [] [] ([] ++ [⟨some "Z", some "1", some "5"⟩]) "1"
      = exportCenterRows true false [⟨some "A", some "R", some "D", some "E", some "1", none⟩]
        true [] [] [] "1" :=
  (c10_output_articles true false [⟨some "A", some "R", some "D", some "E", some "1", none⟩]
      true [] [] [] "1").2 ⟨some "Z", some "1", some "5"⟩
    (fun t ht => by
      injection ht with h
      subst h
      decide)
